import Mathlib

/-!
Shallow embedding of the `convmarkup` package (a parser and elaborator for a
markup language describing convolutional networks) together with proofs about
its behaviour.

Sources embedded:
* `blocks.go` (final revision, the one the test file exercises: it registers
  `PoolCreator`-based `MaxPool`/`MeanPool`, `Resize` and `Linear`): the `Dims`
  data type, the `Block` variants, every `Create*` function and the attribute
  validation helpers.
* `parser.go`: `ParseError`, `ASTNode`, `Parse`, `parseLines`,
  `matchingClose`, `parseAttrs`.
* `realizer.go`: `ErrUnsupportedBlock`, `MetaRealizer`, `RealizerChain` and
  its `Realize` method.

Go `int` values are modelled as `Int`; Go's integer division truncates toward
zero, which is `Int.div` (not `/`, which in Mathlib is Euclidean).  Go
`float64` attribute values are modelled as `Rat`: the only operations the code
performs on them are equality with their own integral truncation, comparison
against an integer bound, and truncation to `int`, all of which `Rat` models
exactly.  Go errors are modelled with `Except String`.
-/

namespace Convmarkup

/-- The opening curly-brace character. -/
def obrace : Char := Char.ofNat 123

/-- The closing curly-brace character. -/
def cbrace : Char := Char.ofNat 125

/-- The opening curly brace as a one-character string. -/
def obraceStr : String := obrace.toString

/-- The closing curly brace as a one-character string. -/
def cbraceStr : String := cbrace.toString

/-- `Dims` defines the dimensions of a 3D tensor (Go struct `Dims`). -/
structure Dims where
  Width : Int
  Height : Int
  Depth : Int
deriving DecidableEq, Repr

/-- Attribute maps (`map[string]float64`) are modelled as association lists;
the parser never produces duplicate keys. -/
abbrev Attrs := List (String × Rat)

/-- Go's `attr[name]` lookup: a missing key yields the zero value. -/
def attrVal (attrs : Attrs) (name : String) : Rat :=
  (attrs.lookup name).getD 0

/-- Go's `int(v)` conversion of a `float64`: truncation toward zero.
On rationals this is truncated division of numerator by denominator. -/
def ratTrunc (v : Rat) : Int :=
  Int.tdiv v.num (v.den : Int)

/-- The elaborated `Block` variants of the final `blocks.go`.  Each Go struct
pointer type becomes one constructor carrying the same fields. -/
inductive Block where
  | Root (Children : List Block)
  | Input (Out : Dims)
  | Assert (In : Dims)
  | Conv (FilterWidth FilterHeight FilterCount StrideX StrideY : Int) (Out : Dims)
  | Pool (Name : String) (Width Height StrideX StrideY : Int) (Out : Dims)
  | Padding (Top Right Bottom Left : Int) (Out : Dims)
  | Resize (Out : Dims)
  | Residual (Projection : List Block) (Residual : List Block)
  | Projection (Children : List Block) (In : Dims)
  | FC (OutCount : Int)
  | Repeat (N : Int) (Children : List Block) (In : Dims)
  | Linear (Scale Bias : Rat) (In : Dims)
  | Activation (Name : String) (Out : Dims)
deriving Repr

mutual

/-- The `OutDims` method of each block variant.  `Root.OutDims` and
`Residual.OutDims` index the last element of a child list; the Go code would
panic on an empty list (unreachable through the creators, which demand at
least one child), here the empty case returns the zero `Dims`. -/
def Block.OutDims : Block → Dims
  | .Root children => lastOutDims children
  | .Input out => out
  | .Assert inD => inD
  | .Conv _ _ _ _ _ out => out
  | .Pool _ _ _ _ _ out => out
  | .Padding _ _ _ _ out => out
  | .Resize out => out
  | .Residual _ res => lastOutDims res
  | .Projection _ inD => inD
  | .FC outCount => ⟨1, 1, outCount⟩
  | .Repeat _ _ inD => inD
  | .Linear _ _ inD => inD
  | .Activation _ out => out

/-- `OutDims` of the last block of a list (Go `l[len(l)-1].OutDims()`). -/
def lastOutDims : List Block → Dims
  | [] => ⟨0, 0, 0⟩
  | [b] => Block.OutDims b
  | _ :: b :: rest => lastOutDims (b :: rest)

end

/-- Error string of `ErrUnexpectedChildren`. -/
def ErrUnexpectedChildren : String := "unexpected children"

/-- Error string of `ErrNotEnoughChildren`. -/
def ErrNotEnoughChildren : String := "not enough children"

/-- A `Creator` can create blocks (Go type `Creator`). -/
abbrev Creator := Dims → Attrs → List Block → Except String Block

/-- Go `onlyTheseAttrs`: every attribute name must be in the allowed list. -/
def onlyTheseAttrs (attrs : Attrs) (allowed : List String) : Except String Unit :=
  match attrs with
  | [] => .ok ()
  | (a, _) :: rest =>
    if a ∈ allowed then onlyTheseAttrs rest allowed
    else .error ("unexpected attribute: " ++ a)

/-- Go `hasAllAttrs`: every name in `mustHave` must be present. -/
def hasAllAttrs (attrs : Attrs) (mustHave : List String) : Except String Unit :=
  match mustHave with
  | [] => .ok ()
  | x :: rest =>
    match attrs.lookup x with
    | some _ => hasAllAttrs attrs rest
    | none => .error ("missing attribute: " ++ x)

/-- Go `validInt`: each listed attribute that is present must equal its own
truncation (`val != float64(int(val))` check) and its truncation must be at
least `min`. -/
def validInt (attrs : Attrs) (min : Int) (names : List String) : Except String Unit :=
  match names with
  | [] => .ok ()
  | name :: rest =>
    match attrs.lookup name with
    | none => validInt attrs min rest
    | some val =>
      if val ≠ (ratTrunc val : Rat) then
        .error ("attribute " ++ name ++ " must be integer")
      else if ratTrunc val < min then
        .error ("attribute " ++ name ++ " cannot be " ++ toString (ratTrunc val))
      else validInt attrs min rest

/-- Go `hasAllAndOnlyInts`. -/
def hasAllAndOnlyInts (attrs : Attrs) (min : Int) (allowed : List String) :
    Except String Unit :=
  match onlyTheseAttrs attrs allowed with
  | .error e => .error e
  | .ok _ =>
    match hasAllAttrs attrs allowed with
    | .error e => .error e
    | .ok _ => validInt attrs min allowed

/-- Go `CreateConv`. -/
def CreateConv : Creator := fun inD attr children =>
  if children.length > 0 then .error ErrUnexpectedChildren
  else match onlyTheseAttrs attr ["w", "h", "n", "sx", "sy"] with
  | .error e => .error e
  | .ok _ =>
    match hasAllAttrs attr ["w", "h", "n"] with
    | .error e => .error e
    | .ok _ =>
      match validInt attr 1 ["w", "h", "n", "sx", "sy"] with
      | .error e => .error e
      | .ok _ =>
        let fw := ratTrunc (attrVal attr "w")
        let fh := ratTrunc (attrVal attr "h")
        let fn := ratTrunc (attrVal attr "n")
        let sx0 := ratTrunc (attrVal attr "sx")
        let sy0 := ratTrunc (attrVal attr "sy")
        let sx := if sx0 = 0 then 1 else sx0
        let sy := if sy0 = 0 then 1 else sy0
        let w0 := 1 + Int.tdiv (inD.Width - fw) sx
        let h0 := 1 + Int.tdiv (inD.Height - fh) sy
        let outW := if w0 < 0 then 0 else w0
        let outH := if h0 < 0 then 0 else h0
        .ok (.Conv fw fh fn sx sy ⟨outW, outH, fn⟩)

/-- Go `CreateRoot`. -/
def CreateRoot : Creator := fun _ attr children =>
  if children.length = 0 then .error ErrNotEnoughChildren
  else match hasAllAndOnlyInts attr 0 [] with
  | .error e => .error e
  | .ok _ => .ok (.Root children)

/-- Go `CreateInput`. -/
def CreateInput : Creator := fun _ attr children =>
  if children.length ≠ 0 then .error ErrUnexpectedChildren
  else match hasAllAndOnlyInts attr 1 ["w", "h", "d"] with
  | .error e => .error e
  | .ok _ =>
    .ok (.Input ⟨ratTrunc (attrVal attr "w"), ratTrunc (attrVal attr "h"),
      ratTrunc (attrVal attr "d")⟩)

/-- Go `CreateAssert`. -/
def CreateAssert : Creator := fun inD attr children =>
  if children.length ≠ 0 then .error ErrUnexpectedChildren
  else match hasAllAndOnlyInts attr 0 ["w", "h", "d"] with
  | .error e => .error e
  | .ok _ =>
    if ratTrunc (attrVal attr "w") ≠ inD.Width ∨
        ratTrunc (attrVal attr "h") ≠ inD.Height ∨
        ratTrunc (attrVal attr "d") ≠ inD.Depth then
      .error ("expected dimensions " ++ toString (ratTrunc (attrVal attr "w")) ++ "x" ++
        toString (ratTrunc (attrVal attr "h")) ++ "x" ++
        toString (ratTrunc (attrVal attr "d")) ++ " but got " ++
        toString inD.Width ++ "x" ++ toString inD.Height ++ "x" ++ toString inD.Depth)
    else .ok (.Assert inD)

/-- Go `PoolCreator`: the shared creator behind `MaxPool` and `MeanPool`. -/
def PoolCreator (name : String) : Creator := fun inD attr children =>
  if children.length > 0 then .error ErrUnexpectedChildren
  else match onlyTheseAttrs attr ["w", "h", "sx", "sy"] with
  | .error e => .error e
  | .ok _ =>
    match hasAllAttrs attr ["w", "h"] with
    | .error e => .error e
    | .ok _ =>
      match validInt attr 1 ["w", "h", "sx", "sy"] with
      | .error e => .error e
      | .ok _ =>
        let w := ratTrunc (attrVal attr "w")
        let h := ratTrunc (attrVal attr "h")
        let sx0 := ratTrunc (attrVal attr "sx")
        let sy0 := ratTrunc (attrVal attr "sy")
        let sx := if sx0 = 0 then w else sx0
        let sy := if sy0 = 0 then h else sy0
        let w0 := 1 + Int.tdiv (inD.Width - w) sx
        let h0 := 1 + Int.tdiv (inD.Height - h) sy
        let outW := if w0 < 0 then 0 else w0
        let outH := if h0 < 0 then 0 else h0
        .ok (.Pool name w h sx sy ⟨outW, outH, inD.Depth⟩)

/-- Go `CreatePadding`. -/
def CreatePadding : Creator := fun inD attr children =>
  if children.length > 0 then .error ErrUnexpectedChildren
  else match hasAllAndOnlyInts attr 0 ["t", "r", "b", "l"] with
  | .error e => .error e
  | .ok _ =>
    let t := ratTrunc (attrVal attr "t")
    let r := ratTrunc (attrVal attr "r")
    let b := ratTrunc (attrVal attr "b")
    let l := ratTrunc (attrVal attr "l")
    .ok (.Padding t r b l ⟨inD.Width + l + r, inD.Height + t + b, inD.Depth⟩)

/-- Go `CreateResize`. -/
def CreateResize : Creator := fun inD attr children =>
  if children.length > 0 then .error ErrUnexpectedChildren
  else match hasAllAndOnlyInts attr 1 ["w", "h"] with
  | .error e => .error e
  | .ok _ =>
    if inD.Width = 0 ∨ inD.Height = 0 ∨ inD.Depth = 0 then
      .error "input cannot be empty"
    else
      .ok (.Resize ⟨ratTrunc (attrVal attr "w"), ratTrunc (attrVal attr "h"), inD.Depth⟩)

/-- Tests whether a block is a `*Projection` (the Go type assertion
`children[0].(*Projection)` in `CreateResidual`). -/
def Block.isProjBlock : Block → Bool
  | .Projection _ _ => true
  | _ => false

/-- Go `CreateResidual`, with the length checks, the type assertion on the
first child and the slice `children[1:]` rendered as pattern matches: an
empty list fails, a leading `Projection` is detached (failing when nothing
follows it) and its mismatch check compares the two branches' last output
dims, and otherwise the whole list is the residual branch and the mismatch
check compares against the inherited input. -/
def CreateResidual : Creator := fun inD _ children =>
  match children with
  | [] => .error ErrNotEnoughChildren
  | .Projection pc _ :: rest =>
    match rest with
    | [] => .error ErrNotEnoughChildren
    | _ :: _ =>
      if lastOutDims pc ≠ lastOutDims rest then .error "residual output size mismatch"
      else .ok (.Residual pc rest)
  | c0 :: rest =>
    if lastOutDims (c0 :: rest) ≠ inD then .error "residual output size mismatch"
    else .ok (.Residual [] (c0 :: rest))

/-- Go `CreateProjection`. -/
def CreateProjection : Creator := fun inD attr children =>
  match hasAllAndOnlyInts attr 0 [] with
  | .error e => .error e
  | .ok _ =>
    if children.length = 0 then .error ErrNotEnoughChildren
    else .ok (.Projection children inD)

/-- Go `CreateFC`. -/
def CreateFC : Creator := fun _ attr children =>
  if children.length ≠ 0 then .error ErrUnexpectedChildren
  else match hasAllAndOnlyInts attr 1 ["out"] with
  | .error e => .error e
  | .ok _ => .ok (.FC (ratTrunc (attrVal attr "out")))

/-- Go `CreateRepeat`. -/
def CreateRepeat : Creator := fun inD attr children =>
  match hasAllAndOnlyInts attr 1 ["n"] with
  | .error e => .error e
  | .ok _ =>
    if children.length > 0 ∧ lastOutDims children ≠ inD then
      .error "input and output lengths must match"
    else .ok (.Repeat (ratTrunc (attrVal attr "n")) children inD)

/-- Go `CreateLinear`. -/
def CreateLinear : Creator := fun inD attr children =>
  match onlyTheseAttrs attr ["scale", "bias"] with
  | .error e => .error e
  | .ok _ =>
    if children.length > 0 then .error ErrUnexpectedChildren
    else
      let scale := if (attr.lookup "scale").isSome then attrVal attr "scale" else 1
      .ok (.Linear scale (attrVal attr "bias") inD)

/-- Go `ActivationCreator`. -/
def ActivationCreator (name : String) : Creator := fun inD a c =>
  if c.length ≠ 0 then .error ErrUnexpectedChildren
  else match hasAllAndOnlyInts a 0 [] with
  | .error e => .error e
  | .ok _ => .ok (.Activation name inD)

/-- Go `DefaultCreators`: the registry mapping block names to creators,
modelled as a partial function. -/
def DefaultCreators : String → Option Creator := fun name =>
  if name = "" then some CreateRoot
  else if name = "Input" then some CreateInput
  else if name = "Assert" then some CreateAssert
  else if name = "Conv" then some CreateConv
  else if name = "Padding" then some CreatePadding
  else if name = "Resize" then some CreateResize
  else if name = "Residual" then some CreateResidual
  else if name = "Projection" then some CreateProjection
  else if name = "FC" then some CreateFC
  else if name = "Repeat" then some CreateRepeat
  else if name = "Linear" then some CreateLinear
  else if name = "MaxPool" then some (PoolCreator "MaxPool")
  else if name = "MeanPool" then some (PoolCreator "MeanPool")
  else if name = "BatchNorm" then some (ActivationCreator "BatchNorm")
  else if name = "ReLU" then some (ActivationCreator "ReLU")
  else if name = "Sigmoid" then some (ActivationCreator "Sigmoid")
  else if name = "Tanh" then some (ActivationCreator "Tanh")
  else if name = "Softmax" then some (ActivationCreator "Softmax")
  else none

/-- A `ParseError` is an error produced while trying to parse a piece of
code (`parser.go`).  `Line` is the line number, starting at 0. -/
structure ParseError where
  Message : String
  Line : Int
deriving DecidableEq, Repr

/-- The `Error` method of `ParseError`:
`fmt.Sprintf("line %d: %s", p.Line+1, p.Message)`. -/
def ParseError.Error (p : ParseError) : String :=
  "line " ++ toString (p.Line + 1) ++ ": " ++ p.Message

/-- `ASTNode` is a node in a parsed markup file (`parser.go`).
`Line` is the line number, starting at 0. -/
structure ASTNode where
  Line : Int
  BlockName : String
  Attrs : Attrs
  Children : List ASTNode
deriving Repr

/-- The whitespace characters trimmed by `strings.TrimSpace` (ASCII range;
the Go function also trims the rare non-ASCII Unicode spaces, which the
claims never involve). -/
def isSpaceChar (c : Char) : Bool :=
  c = ' ' ∨ c = '\t' ∨ c = '\n' ∨ c = Char.ofNat 11 ∨ c = Char.ofNat 12 ∨ c = '\r'

/-- `strings.TrimSpace`. -/
def trimSpace (s : String) : String :=
  ⟨((s.toList.dropWhile isSpaceChar).reverse.dropWhile isSpaceChar).reverse⟩

/-- A letter as matched by the regexp class `[A-Za-z]`. -/
def isLetterAZ (c : Char) : Bool :=
  ('A' ≤ c ∧ c ≤ 'Z') ∨ ('a' ≤ c ∧ c ≤ 'z')

/-- The anchored regexp `commandExpr`
(`^([A-Za-z]*)(\(([^\)]*)\))?( \x7b)?$`) applied to a line.  Returns the
block name, the raw attribute list (submatch 3, empty when the parenthesised
group is absent) and whether the optional trailing open-brace group matched.
The regexp is deterministic: the name is the maximal letter prefix, and the
inner attribute text is everything up to the first close paren. -/
def commandMatch (s : String) : Option (String × String × Bool) :=
  let cs := s.toList
  let name : String := ⟨cs.takeWhile isLetterAZ⟩
  let rest := cs.dropWhile isLetterAZ
  if rest = [] then some (name, "", false)
  else if rest = [' ', obrace] then some (name, "", true)
  else match rest with
  | '(' :: r =>
    let inner : String := ⟨r.takeWhile (fun c => c ≠ ')')⟩
    (match r.dropWhile (fun c => c ≠ ')') with
    | ')' :: t =>
      if t = [] then some (name, inner, false)
      else if t = [' ', obrace] then some (name, inner, true)
      else none
    | _ => none)
  | _ => none

/-- The anchored regexp `argExpr` (`^ *([A-Za-z]*)=([\-0-9\.]*) *$`) applied
to one comma-separated attribute piece; returns name and raw value text. -/
def argMatch (s : String) : Option (String × String) :=
  let cs := s.toList.dropWhile (fun c => c = ' ')
  let name : String := ⟨cs.takeWhile isLetterAZ⟩
  match cs.dropWhile isLetterAZ with
  | '=' :: r =>
    let isValChar : Char → Bool := fun c => c = '-' ∨ c = '.' ∨ c.isDigit
    let v : String := ⟨r.takeWhile isValChar⟩
    if (r.dropWhile isValChar).all (fun c => c = ' ') then some (name, v) else none
  | _ => none

/-- Numeric value of a digit string. -/
def digitsToNat (l : List Char) : Nat :=
  l.foldl (fun a c => a * 10 + (c.toNat - 48)) 0

/-- `strconv.ParseFloat` restricted to the strings `argExpr` can produce
(characters `-`, `.`, digits): an optional leading minus, then digits with at
most one dot and at least one digit overall.  The numeric value is kept as an
exact rational (`ParseFloat` would round it to the nearest `float64`; none of
the verified properties depend on that rounding). -/
def parseGoFloat (s : String) : Option Rat :=
  let (neg, cs) :=
    match s.toList with
    | '-' :: t => (true, t)
    | l => (false, l)
  let ip := cs.takeWhile Char.isDigit
  let mag : Rat → Rat := fun v => if neg then -v else v
  match cs.dropWhile Char.isDigit with
  | [] => if ip = [] then none else some (mag (digitsToNat ip : Rat))
  | '.' :: fr =>
    if fr.all Char.isDigit ∧ (ip ≠ [] ∨ fr ≠ []) then
      some (mag (mkRat (digitsToNat ip * 10 ^ fr.length + digitsToNat fr) (10 ^ fr.length)))
    else none
  | _ => none

/-- The indexed loop body of Go `parseAttrs`. -/
def parseAttrsGo : List String → Nat → Attrs → Except String Attrs
  | [], _, acc => .ok acc
  | piece :: rest, i, acc =>
    match argMatch piece with
    | none => .error ("bad format for attribute " ++ toString i)
    | some (name, valStr) =>
      match parseGoFloat valStr with
      | none => .error ("bad format for attribute " ++ toString i)
      | some v =>
        if (acc.lookup name).isSome then .error ("duplicate attribute: " ++ name)
        else parseAttrsGo rest (i + 1) (acc ++ [(name, v)])

/-- Go `parseAttrs`. -/
def parseAttrs (str : String) : Except String Attrs :=
  if str = "" then .ok []
  else parseAttrsGo (str.splitOn ",") 0 []

/-- The scanning loop of Go `matchingClose`, expressed relative to the line
after the opening line: returns the offset of the matching close within `l`.
`numIndent` starts at 1; a bare close-brace line decrements it (returning
when it reaches 0), and a line ending in an open brace increments it. -/
def matchingCloseAux : List String → Int → Option Nat
  | [], _ => none
  | l :: rest, numIndent =>
    if l = cbraceStr then
      if numIndent = 1 then some 0
      else (matchingCloseAux rest (numIndent - 1)).map (· + 1)
    else if l.endsWith obraceStr then (matchingCloseAux rest (numIndent + 1)).map (· + 1)
    else (matchingCloseAux rest numIndent).map (· + 1)

/-- Go `matchingClose`: finds the matching close curly-brace line for the
opening line at index `openIdx`. -/
def matchingClose (lines : List String) (openIdx : Nat) : Option Nat :=
  (matchingCloseAux (lines.drop (openIdx + 1)) 1).map (fun r => openIdx + 1 + r)

/-- Go `parseLines`, with the loop over indices rendered as recursion on the
list of lines: `off` is the absolute line number of the current head.  A body
opener consumes its body (`rest.take c`, parsed at offset `off+1`) and
resumes after the matching close (`rest.drop (c+1)`, at offset `off+c+2`),
exactly as the Go loop sets `i = closeIdx` and continues. -/
def parseLines (off : Int) : List String → Except ParseError (List ASTNode)
  | [] => .ok []
  | x :: rest =>
    if x = "" then parseLines (off + 1) rest
    else match commandMatch x with
    | none => .error ⟨"invalid block declaration", off⟩
    | some (name, attrStr, opensBody) =>
      match parseAttrs attrStr with
      | .error msg => .error ⟨msg, off⟩
      | .ok attrs =>
        if opensBody then
          match matchingCloseAux rest 1 with
          | none => .error ⟨"no matching " ++ cbraceStr, off⟩
          | some c =>
            match parseLines (off + 1) (rest.take c) with
            | .error e => .error e
            | .ok children =>
              match parseLines (off + (c : Int) + 2) (rest.drop (c + 1)) with
              | .error e => .error e
              | .ok nodes => .ok (⟨off, name, attrs, children⟩ :: nodes)
        else
          match parseLines (off + 1) rest with
          | .error e => .error e
          | .ok nodes => .ok (⟨off, name, attrs, []⟩ :: nodes)
termination_by l => l.length
decreasing_by
  all_goals simp [List.length_take]
  all_goals omega

/-- Go `Parse`: split into lines, trim, blank out comments, parse, and wrap
the result in the synthetic root node. -/
def Parse (contents : String) : Except ParseError ASTNode :=
  let lines := (contents.splitOn "\n").map (fun x =>
    let y := trimSpace x
    if y.startsWith "#" then "" else y)
  match parseLines 0 lines with
  | .error e => .error e
  | .ok parsed => .ok ⟨0, "", [], parsed⟩

mutual

/-- Modelled from the spec: the repository's elaboration entry point (the
`ASTNode` method that turns an AST node into a `Block`, which the tests call
as `parsed.Block(Dims{}, DefaultCreators())`) is not among the provided
source files; this follows §4.2 of the spec: children are elaborated in
order with dimension threading, then the node's registered creator is
invoked with the node's input `Dims`, its attributes, and the elaborated
children. -/
def elaborate (reg : String → Option Creator) (inD : Dims) :
    ASTNode → Except String Block
  | ⟨_, blockName, attrs, children⟩ =>
    match elaborateChildren reg inD children with
    | .error e => .error e
    | .ok blocks =>
      match reg blockName with
      | none => .error ("unknown block type: " ++ blockName)
      | some create => create inD attrs blocks

/-- Modelled from the spec (§4.2): elaborate a child list in order; the
first child receives the node's own input `Dims`, every subsequent child
receives the output `Dims` of the immediately preceding elaborated child. -/
def elaborateChildren (reg : String → Option Creator) (inD : Dims) :
    List ASTNode → Except String (List Block)
  | [] => .ok []
  | c :: cs =>
    match elaborate reg inD c with
    | .error e => .error e
    | .ok b =>
      match elaborateChildren reg b.OutDims cs with
      | .error e => .error e
      | .ok bs => .ok (b :: bs)

end

/-- The distinguished `ErrUnsupportedBlock` sentinel and realizer-specific
errors (`realizer.go`).  Go compares the sentinel by identity, so it is a
separate constructor rather than a string. -/
inductive RErr where
  | UnsupportedBlock
  | Msg (s : String)
deriving DecidableEq, Repr

/-- The Go `%T` formatting of each block's runtime type (the blocks are
created as pointers, so the type name is the pointer type). -/
def Block.goTypeName : Block → String
  | .Root _ => "*convmarkup.Root"
  | .Input _ => "*convmarkup.Input"
  | .Assert _ => "*convmarkup.Assert"
  | .Conv _ _ _ _ _ _ => "*convmarkup.Conv"
  | .Pool _ _ _ _ _ _ => "*convmarkup.Pool"
  | .Padding _ _ _ _ _ => "*convmarkup.Padding"
  | .Resize _ => "*convmarkup.Resize"
  | .Residual _ _ => "*convmarkup.Residual"
  | .Projection _ _ => "*convmarkup.Projection"
  | .FC _ => "*convmarkup.FC"
  | .Repeat _ _ _ => "*convmarkup.Repeat"
  | .Linear _ _ _ => "*convmarkup.Linear"
  | .Activation _ _ => "*convmarkup.Activation"

/-- A `Realizer`'s `Realize` method, returning the Go pair
`(interface{}, error)`.  In Go the realizer additionally receives the chain
itself so that it can recurse into children; during a single chain dispatch
the chain is a fixed value, so a realizer's behaviour there is a function of
the input `Dims` and the `Block`, which is what the dispatch claims are
about. -/
def RealizerFn (α : Type) := Dims → Block → Option α × Option RErr

/-- A `RealizerChain` is an ordered list of realizers. -/
abbrev RealizerChain (α : Type) := List (RealizerFn α)

/-- Go `RealizerChain.Realize`: try each realizer in order, skipping those
that return `ErrUnsupportedBlock`; if none remains, fail with the
"unsupported block" error naming the block's runtime type.  Returns the Go
triple `(val, supported, err)`. -/
def RealizerChain.Realize {α : Type} :
    RealizerChain α → Dims → Block → Option α × Bool × Option RErr
  | [], _, b => (none, false, some (.Msg ("unsupported block: " ++ b.goTypeName)))
  | realizer :: rest, d, b =>
    match realizer d b with
    | (obj, err) =>
      if err = some .UnsupportedBlock then RealizerChain.Realize rest d b
      else (obj, true, err)

/-- Go `MetaRealizer`: succeeds with no value on `Assert` and `Input`,
declines everything else. -/
def MetaRealizer {α : Type} : RealizerFn α := fun _ b =>
  match b with
  | .Assert _ => (none, none)
  | .Input _ => (none, none)
  | _ => (none, some .UnsupportedBlock)

/-- The nesting-depth contribution of one trimmed line, as the spec's depth
rule describes it: a standalone close-brace line decreases the depth by one,
a line ending in an open brace increases it by one, and every other line
leaves it unchanged (mirrors the branch structure of `matchingClose`). -/
def lineDelta (s : String) : Int :=
  if s = cbraceStr then -1 else if s.endsWith obraceStr then 1 else 0

/-- Net depth change over a list of lines. -/
def deltaSum (l : List String) : Int := (l.map lineDelta).sum

/-- Declarative matching-close condition relative to the lines following an
opening line with running depth `n`: position `j` holds a standalone
close-brace line at the opening line's nesting depth (the accumulated depth
deltas before it cancel `n` down to one, which that line closes). -/
def closeCondAt (l : List String) (n : Int) (j : Nat) : Prop :=
  j < l.length ∧ l.getD j "" = cbraceStr ∧ n + deltaSum (l.take j) = 1

/-- An attribute map violates a block's attribute discipline, given the
block's allowed-name set, its required names, its integer-constrained names
and its integer minimum: (1) a name outside the allowed set is present,
(2) a required name is absent, or (3) an integer-constrained present value
is fractional or below the minimum. -/
def attrViolation (attrs : Attrs) (min : Int)
    (allowed required intNames : List String) : Prop :=
  (∃ p ∈ attrs, p.1 ∉ allowed) ∨
  (∃ x ∈ required, attrs.lookup x = none) ∨
  (∃ nm ∈ intNames, ∃ v, attrs.lookup nm = some v ∧
    (v ≠ ((ratTrunc v : Int) : Rat) ∨ ratTrunc v < min))

/-- The error string names an offending attribute: it is one of the three
validator messages, produced for a name that actually violates the
corresponding rule in this attribute map. -/
def attrErrNaming (attrs : Attrs) (min : Int)
    (allowed required intNames : List String) (e : String) : Prop :=
  (∃ a v, (a, v) ∈ attrs ∧ a ∉ allowed ∧ e = "unexpected attribute: " ++ a) ∨
  (∃ x ∈ required, attrs.lookup x = none ∧ e = "missing attribute: " ++ x) ∨
  (∃ nm ∈ intNames, ∃ v, attrs.lookup nm = some v ∧
    ((v ≠ ((ratTrunc v : Int) : Rat) ∧ e = "attribute " ++ nm ++ " must be integer") ∨
      (ratTrunc v < min ∧
        e = "attribute " ++ nm ++ " cannot be " ++ toString (ratTrunc v))))

/-- A creator rejects every attribute map violating the given discipline,
with an error naming an offending attribute; `childrenArg` is a child list
satisfying the creator's structural checks (so that the failure observed is
the attribute validation's, not a children error). -/
def creatorRejectsBadAttrs (create : Creator) (min : Int)
    (allowed required intNames : List String) (childrenArg : List Block) : Prop :=
  ∀ (inD : Dims) (attr : Attrs), attrViolation attr min allowed required intNames →
    ∃ e, create inD attr childrenArg = .error e ∧
      attrErrNaming attr min allowed required intNames e

/-! ## Helper lemmas about the attribute validators -/

lemma onlyTheseAttrs_ok_iff (attrs : Attrs) (allowed : List String) :
    onlyTheseAttrs attrs allowed = .ok () ↔ ∀ p ∈ attrs, p.1 ∈ allowed := by
  induction attrs with
  | nil => simp [onlyTheseAttrs]
  | cons hd tl ih =>
    obtain ⟨a, v⟩ := hd
    by_cases h : a ∈ allowed
    · simp [onlyTheseAttrs, h, ih]
    · simp [onlyTheseAttrs, h]

lemma hasAllAttrs_ok_iff (attrs : Attrs) (mustHave : List String) :
    hasAllAttrs attrs mustHave = .ok () ↔
      ∀ x ∈ mustHave, (attrs.lookup x).isSome = true := by
  induction mustHave with
  | nil => simp [hasAllAttrs]
  | cons hd tl ih =>
    rcases h : attrs.lookup hd with _ | v
    · constructor
      · intro hok
        simp only [hasAllAttrs, h] at hok
        exact absurd hok (by simp)
      · intro hall
        have := hall hd (by simp)
        rw [h] at this
        simp at this
    · constructor
      · intro hok
        simp only [hasAllAttrs, h] at hok
        intro x hx
        rw [List.mem_cons] at hx
        rcases hx with rfl | hx
        · rw [h]; rfl
        · exact (ih.mp hok) x hx
      · intro hall
        simp only [hasAllAttrs, h]
        exact ih.mpr (fun x hx => hall x (by simp [hx]))

lemma validInt_cons_some (attrs : Attrs) (min : Int) (nm : String) (tl : List String)
    (v : Rat) (h : attrs.lookup nm = some v) :
    validInt attrs min (nm :: tl) =
      if v ≠ ((ratTrunc v : Int) : Rat) then
        .error ("attribute " ++ nm ++ " must be integer")
      else if ratTrunc v < min then
        .error ("attribute " ++ nm ++ " cannot be " ++ toString (ratTrunc v))
      else validInt attrs min tl := by
  simp only [validInt, h]

lemma validInt_ok_iff (attrs : Attrs) (min : Int) (names : List String) :
    validInt attrs min names = .ok () ↔
      ∀ nm ∈ names, ∀ v, attrs.lookup nm = some v →
        v = ((ratTrunc v : Int) : Rat) ∧ min ≤ ratTrunc v := by
  induction names with
  | nil => simp [validInt]
  | cons hd tl ih =>
    rcases h : attrs.lookup hd with _ | v
    · rw [show validInt attrs min (hd :: tl) = validInt attrs min tl by
        simp only [validInt, h]]
      rw [ih]
      constructor
      · intro hall nm hnm v hv
        rw [List.mem_cons] at hnm
        rcases hnm with rfl | hnm
        · rw [h] at hv; cases hv
        · exact hall nm hnm v hv
      · intro hall nm hnm v hv
        exact hall nm (by simp [hnm]) v hv
    · rw [validInt_cons_some attrs min hd tl v h]
      by_cases hint : v = ((ratTrunc v : Int) : Rat)
      · rw [if_neg (not_not_intro hint)]
        by_cases hmin : ratTrunc v < min
        · rw [if_pos hmin]
          constructor
          · intro hbad; exact absurd hbad (by simp)
          · intro hall
            have := (hall hd (by simp) v h).2
            omega
        · rw [if_neg hmin, ih]
          constructor
          · intro hall nm hnm v' hv'
            rw [List.mem_cons] at hnm
            rcases hnm with rfl | hnm
            · rw [h] at hv'; cases hv'; exact ⟨hint, by omega⟩
            · exact hall nm hnm v' hv'
          · intro hall nm hnm v' hv'
            exact hall nm (by simp [hnm]) v' hv'
      · rw [if_pos hint]
        constructor
        · intro hbad; exact absurd hbad (by simp)
        · intro hall
          exact absurd (hall hd (by simp) v h).1 hint

lemma onlyTheseAttrs_error_name (attrs : Attrs) (allowed : List String) (e : String)
    (h : onlyTheseAttrs attrs allowed = .error e) :
    ∃ a v, (a, v) ∈ attrs ∧ a ∉ allowed ∧ e = "unexpected attribute: " ++ a := by
  induction attrs with
  | nil => simp [onlyTheseAttrs] at h
  | cons hd tl ih =>
    obtain ⟨a, v⟩ := hd
    by_cases hm : a ∈ allowed
    · simp only [onlyTheseAttrs, if_pos hm] at h
      obtain ⟨a', v', hmem, hnot, he⟩ := ih h
      exact ⟨a', v', by simp [hmem], hnot, he⟩
    · simp only [onlyTheseAttrs, if_neg hm] at h
      cases h
      exact ⟨a, v, by simp, hm, rfl⟩

lemma hasAllAttrs_error_name (attrs : Attrs) (mustHave : List String) (e : String)
    (h : hasAllAttrs attrs mustHave = .error e) :
    ∃ x ∈ mustHave, attrs.lookup x = none ∧ e = "missing attribute: " ++ x := by
  induction mustHave with
  | nil => simp [hasAllAttrs] at h
  | cons hd tl ih =>
    rcases hl : attrs.lookup hd with _ | v
    · simp only [hasAllAttrs, hl] at h
      cases h
      exact ⟨hd, by simp, hl, rfl⟩
    · simp only [hasAllAttrs, hl] at h
      obtain ⟨x, hx, hnone, he⟩ := ih h
      exact ⟨x, by simp [hx], hnone, he⟩

lemma validInt_error_name (attrs : Attrs) (min : Int) (names : List String) (e : String)
    (h : validInt attrs min names = .error e) :
    ∃ nm ∈ names, ∃ v, attrs.lookup nm = some v ∧
      ((v ≠ ((ratTrunc v : Int) : Rat) ∧ e = "attribute " ++ nm ++ " must be integer") ∨
        (ratTrunc v < min ∧
          e = "attribute " ++ nm ++ " cannot be " ++ toString (ratTrunc v))) := by
  induction names with
  | nil => simp [validInt] at h
  | cons hd tl ih =>
    rcases hl : attrs.lookup hd with _ | v
    · rw [show validInt attrs min (hd :: tl) = validInt attrs min tl by
        simp only [validInt, hl]] at h
      obtain ⟨nm, hnm, hrest⟩ := ih h
      exact ⟨nm, by simp [hnm], hrest⟩
    · rw [validInt_cons_some attrs min hd tl v hl] at h
      by_cases hint : v = ((ratTrunc v : Int) : Rat)
      · rw [if_neg (not_not_intro hint)] at h
        by_cases hmin : ratTrunc v < min
        · rw [if_pos hmin] at h
          cases h
          exact ⟨hd, by simp, v, hl, Or.inr ⟨hmin, rfl⟩⟩
        · rw [if_neg hmin] at h
          obtain ⟨nm, hnm, hrest⟩ := ih h
          exact ⟨nm, by simp [hnm], hrest⟩
      · rw [if_pos hint] at h
        cases h
        exact ⟨hd, by simp, v, hl, Or.inl ⟨hint, rfl⟩⟩

lemma hasAllAndOnlyInts_ok_iff (attrs : Attrs) (min : Int) (allowed : List String) :
    hasAllAndOnlyInts attrs min allowed = .ok () ↔
      (∀ p ∈ attrs, p.1 ∈ allowed) ∧
      (∀ x ∈ allowed, (attrs.lookup x).isSome = true) ∧
      (∀ nm ∈ allowed, ∀ v, attrs.lookup nm = some v →
        v = ((ratTrunc v : Int) : Rat) ∧ min ≤ ratTrunc v) := by
  unfold hasAllAndOnlyInts
  rcases h1 : onlyTheseAttrs attrs allowed with e1 | u1
  · simp only []
    constructor
    · intro hbad; exact absurd hbad (by simp)
    · rintro ⟨ho, _, _⟩
      exact absurd ((onlyTheseAttrs_ok_iff attrs allowed).mpr ho) (by simp [h1])
  · obtain ⟨⟩ := u1
    rcases h2 : hasAllAttrs attrs allowed with e2 | u2
    · simp only []
      constructor
      · intro hbad; exact absurd hbad (by simp)
      · rintro ⟨_, hh, _⟩
        exact absurd ((hasAllAttrs_ok_iff attrs allowed).mpr hh) (by simp [h2])
    · obtain ⟨⟩ := u2
      simp only []
      rw [validInt_ok_iff]
      constructor
      · intro hv
        exact ⟨(onlyTheseAttrs_ok_iff attrs allowed).mp h1,
          (hasAllAttrs_ok_iff attrs allowed).mp h2, hv⟩
      · rintro ⟨_, _, hv⟩
        exact hv

lemma hasAllAndOnlyInts_error_name (attrs : Attrs) (min : Int)
    (allowed : List String) (e : String)
    (h : hasAllAndOnlyInts attrs min allowed = .error e) :
    (∃ a v, (a, v) ∈ attrs ∧ a ∉ allowed ∧ e = "unexpected attribute: " ++ a) ∨
    (∃ x ∈ allowed, attrs.lookup x = none ∧ e = "missing attribute: " ++ x) ∨
    (∃ nm ∈ allowed, ∃ v, attrs.lookup nm = some v ∧
      ((v ≠ ((ratTrunc v : Int) : Rat) ∧ e = "attribute " ++ nm ++ " must be integer") ∨
        (ratTrunc v < min ∧
          e = "attribute " ++ nm ++ " cannot be " ++ toString (ratTrunc v)))) := by
  unfold hasAllAndOnlyInts at h
  rcases h1 : onlyTheseAttrs attrs allowed with e1 | u1
  · rw [h1] at h
    simp only [] at h
    cases h
    exact Or.inl (onlyTheseAttrs_error_name attrs allowed _ h1)
  · obtain ⟨⟩ := u1
    rw [h1] at h
    simp only [] at h
    rcases h2 : hasAllAttrs attrs allowed with e2 | u2
    · rw [h2] at h
      simp only [] at h
      cases h
      exact Or.inr (Or.inl (hasAllAttrs_error_name attrs allowed _ h2))
    · obtain ⟨⟩ := u2
      rw [h2] at h
      simp only [] at h
      exact Or.inr (Or.inr (validInt_error_name attrs min allowed e h))

/-! ## Claim theorems -/

/-- A violation of the `hasAllAndOnlyInts` discipline makes it fail with an
error naming an offending attribute. -/
lemma hasAllAndOnlyInts_violation (attrs : Attrs) (min : Int) (allowed : List String)
    (hv : attrViolation attrs min allowed allowed allowed) :
    ∃ e, hasAllAndOnlyInts attrs min allowed = .error e ∧
      attrErrNaming attrs min allowed allowed allowed e := by
  rcases h : hasAllAndOnlyInts attrs min allowed with e | u
  · exact ⟨e, rfl, hasAllAndOnlyInts_error_name attrs min allowed e h⟩
  · obtain ⟨⟩ := u
    obtain ⟨k1, k2, k3⟩ := (hasAllAndOnlyInts_ok_iff attrs min allowed).mp h
    exfalso
    rcases hv with ⟨p, hp, hn⟩ | ⟨x, hx, hnone⟩ | ⟨nm, hnm, v, hlk, hbad⟩
    · exact hn (k1 p hp)
    · have := k2 x hx
      rw [hnone] at this
      exact absurd this (by simp)
    · have := k3 nm hnm v hlk
      rcases hbad with hni | hlt
      · exact hni this.1
      · omega

/-- A violation of the split Conv/Pool discipline (required names a subset
of the allowed ones) fails one of the three validator stages, the earlier
stages having succeeded, with an error naming an offending attribute. -/
lemma split_pipeline_violation (attrs : Attrs) (min : Int)
    (allowed required : List String)
    (hv : attrViolation attrs min allowed required allowed) :
    (∃ e, onlyTheseAttrs attrs allowed = .error e ∧
      attrErrNaming attrs min allowed required allowed e) ∨
    (onlyTheseAttrs attrs allowed = .ok () ∧
      ∃ e, hasAllAttrs attrs required = .error e ∧
        attrErrNaming attrs min allowed required allowed e) ∨
    (onlyTheseAttrs attrs allowed = .ok () ∧ hasAllAttrs attrs required = .ok () ∧
      ∃ e, validInt attrs min allowed = .error e ∧
        attrErrNaming attrs min allowed required allowed e) := by
  rcases h1 : onlyTheseAttrs attrs allowed with e | ⟨⟩
  · exact Or.inl ⟨e, rfl, Or.inl (onlyTheseAttrs_error_name attrs allowed e h1)⟩
  rcases h2 : hasAllAttrs attrs required with e | ⟨⟩
  · exact Or.inr (Or.inl ⟨rfl, e, rfl,
      Or.inr (Or.inl (hasAllAttrs_error_name attrs required e h2))⟩)
  rcases h3 : validInt attrs min allowed with e | ⟨⟩
  · exact Or.inr (Or.inr ⟨rfl, rfl, e, rfl,
      Or.inr (Or.inr (validInt_error_name attrs min allowed e h3))⟩)
  exfalso
  have k1 := (onlyTheseAttrs_ok_iff attrs allowed).mp h1
  have k2 := (hasAllAttrs_ok_iff attrs required).mp h2
  have k3 := (validInt_ok_iff attrs min allowed).mp h3
  rcases hv with ⟨p, hp, hn⟩ | ⟨x, hx, hnone⟩ | ⟨nm, hnm, v, hlk, hbad⟩
  · exact hn (k1 p hp)
  · have := k2 x hx
    rw [hnone] at this
    exact absurd this (by simp)
  · have := k3 nm hnm v hlk
    rcases hbad with hni | hlt
    · exact hni this.1
    · omega

/-- C6 (amended): attribute validation is uniform across every built-in
creator except Residual.  Each creator, applied with children satisfying its
structural checks, rejects any attribute map with an unknown name, a missing
required name, or an integer-constrained value that is fractional or below
the block's minimum, with an error naming an offending attribute; and when
no violation exists the validator pipeline succeeds. -/
theorem attribute_validation_uniform :
    creatorRejectsBadAttrs CreateRoot 0 [] [] [] [.FC 1] ∧
    creatorRejectsBadAttrs CreateInput 1 ["w", "h", "d"] ["w", "h", "d"]
      ["w", "h", "d"] [] ∧
    creatorRejectsBadAttrs CreateAssert 0 ["w", "h", "d"] ["w", "h", "d"]
      ["w", "h", "d"] [] ∧
    creatorRejectsBadAttrs CreateConv 1 ["w", "h", "n", "sx", "sy"] ["w", "h", "n"]
      ["w", "h", "n", "sx", "sy"] [] ∧
    (∀ name, creatorRejectsBadAttrs (PoolCreator name) 1 ["w", "h", "sx", "sy"]
      ["w", "h"] ["w", "h", "sx", "sy"] []) ∧
    creatorRejectsBadAttrs CreatePadding 0 ["t", "r", "b", "l"] ["t", "r", "b", "l"]
      ["t", "r", "b", "l"] [] ∧
    creatorRejectsBadAttrs CreateResize 1 ["w", "h"] ["w", "h"] ["w", "h"] [] ∧
    creatorRejectsBadAttrs CreateFC 1 ["out"] ["out"] ["out"] [] ∧
    (∀ children, creatorRejectsBadAttrs CreateProjection 0 [] [] [] children) ∧
    (∀ children, creatorRejectsBadAttrs CreateRepeat 1 ["n"] ["n"] ["n"] children) ∧
    (∀ children, creatorRejectsBadAttrs CreateLinear 0 ["scale", "bias"] [] []
      children) ∧
    (∀ name, creatorRejectsBadAttrs (ActivationCreator name) 0 [] [] [] []) ∧
    (∀ attrs min allowed, ¬ attrViolation attrs min allowed allowed allowed →
      hasAllAndOnlyInts attrs min allowed = .ok ()) ∧
    (∀ attrs min allowed required intNames,
      ¬ attrViolation attrs min allowed required intNames →
      onlyTheseAttrs attrs allowed = .ok () ∧ hasAllAttrs attrs required = .ok () ∧
      validInt attrs min intNames = .ok ()) := by
  refine ⟨?_, ?_, ?_, ?_, ?_, ?_, ?_, ?_, ?_, ?_, ?_, ?_, ?_, ?_⟩
  · intro inD attr hv
    obtain ⟨e, he, hn⟩ := hasAllAndOnlyInts_violation attr 0 [] hv
    refine ⟨e, ?_, hn⟩
    unfold CreateRoot
    rw [if_neg (by simp), he]
  · intro inD attr hv
    obtain ⟨e, he, hn⟩ := hasAllAndOnlyInts_violation attr 1 ["w", "h", "d"] hv
    refine ⟨e, ?_, hn⟩
    unfold CreateInput
    rw [if_neg (by simp), he]
  · intro inD attr hv
    obtain ⟨e, he, hn⟩ := hasAllAndOnlyInts_violation attr 0 ["w", "h", "d"] hv
    refine ⟨e, ?_, hn⟩
    unfold CreateAssert
    rw [if_neg (by simp), he]
  · intro inD attr hv
    rcases split_pipeline_violation attr 1 ["w", "h", "n", "sx", "sy"] ["w", "h", "n"] hv
      with ⟨e, h1, hn⟩ | ⟨h1, e, h2, hn⟩ | ⟨h1, h2, e, h3, hn⟩
    · refine ⟨e, ?_, hn⟩
      unfold CreateConv
      rw [if_neg (by simp), h1]
    · refine ⟨e, ?_, hn⟩
      unfold CreateConv
      rw [if_neg (by simp), h1, h2]
    · refine ⟨e, ?_, hn⟩
      unfold CreateConv
      rw [if_neg (by simp), h1, h2, h3]
  · intro name inD attr hv
    rcases split_pipeline_violation attr 1 ["w", "h", "sx", "sy"] ["w", "h"] hv
      with ⟨e, h1, hn⟩ | ⟨h1, e, h2, hn⟩ | ⟨h1, h2, e, h3, hn⟩
    · refine ⟨e, ?_, hn⟩
      unfold PoolCreator
      rw [if_neg (by simp), h1]
    · refine ⟨e, ?_, hn⟩
      unfold PoolCreator
      rw [if_neg (by simp), h1, h2]
    · refine ⟨e, ?_, hn⟩
      unfold PoolCreator
      rw [if_neg (by simp), h1, h2, h3]
  · intro inD attr hv
    obtain ⟨e, he, hn⟩ := hasAllAndOnlyInts_violation attr 0 ["t", "r", "b", "l"] hv
    refine ⟨e, ?_, hn⟩
    unfold CreatePadding
    rw [if_neg (by simp), he]
  · intro inD attr hv
    obtain ⟨e, he, hn⟩ := hasAllAndOnlyInts_violation attr 1 ["w", "h"] hv
    refine ⟨e, ?_, hn⟩
    unfold CreateResize
    rw [if_neg (by simp), he]
  · intro inD attr hv
    obtain ⟨e, he, hn⟩ := hasAllAndOnlyInts_violation attr 1 ["out"] hv
    refine ⟨e, ?_, hn⟩
    unfold CreateFC
    rw [if_neg (by simp), he]
  · intro children inD attr hv
    obtain ⟨e, he, hn⟩ := hasAllAndOnlyInts_violation attr 0 [] hv
    refine ⟨e, ?_, hn⟩
    unfold CreateProjection
    rw [he]
  · intro children inD attr hv
    obtain ⟨e, he, hn⟩ := hasAllAndOnlyInts_violation attr 1 ["n"] hv
    refine ⟨e, ?_, hn⟩
    unfold CreateRepeat
    rw [he]
  · intro children inD attr hv
    have hv1 : ∃ p ∈ attr, p.1 ∉ ["scale", "bias"] := by
      rcases hv with h1 | ⟨x, hx, _⟩ | ⟨nm, hnm, _⟩
      · exact h1
      · exact absurd hx (by simp)
      · exact absurd hnm (by simp)
    rcases h1 : onlyTheseAttrs attr ["scale", "bias"] with e | ⟨⟩
    · refine ⟨e, ?_, Or.inl (onlyTheseAttrs_error_name attr ["scale", "bias"] e h1)⟩
      unfold CreateLinear
      rw [h1]
    · obtain ⟨p, hp, hn⟩ := hv1
      exact absurd ((onlyTheseAttrs_ok_iff attr ["scale", "bias"]).mp h1 p hp) hn
  · intro name inD attr hv
    obtain ⟨e, he, hn⟩ := hasAllAndOnlyInts_violation attr 0 [] hv
    refine ⟨e, ?_, hn⟩
    unfold ActivationCreator
    rw [if_neg (by simp), he]
  · intro attrs min allowed hnv
    refine (hasAllAndOnlyInts_ok_iff attrs min allowed).mpr ⟨?_, ?_, ?_⟩
    · intro p hp
      by_contra hn
      exact hnv (Or.inl ⟨p, hp, hn⟩)
    · intro x hx
      rcases hlk : attrs.lookup x with _ | v
      · exact absurd (Or.inr (Or.inl ⟨x, hx, hlk⟩)) hnv
      · rfl
    · intro nm hnm v hlk
      constructor
      · by_contra hn
        exact hnv (Or.inr (Or.inr ⟨nm, hnm, v, hlk, Or.inl hn⟩))
      · by_contra hn
        exact hnv (Or.inr (Or.inr ⟨nm, hnm, v, hlk, Or.inr (by omega)⟩))
  · intro attrs min allowed required intNames hnv
    refine ⟨?_, ?_, ?_⟩
    · refine (onlyTheseAttrs_ok_iff attrs allowed).mpr ?_
      intro p hp
      by_contra hn
      exact hnv (Or.inl ⟨p, hp, hn⟩)
    · refine (hasAllAttrs_ok_iff attrs required).mpr ?_
      intro x hx
      rcases hlk : attrs.lookup x with _ | v
      · exact absurd (Or.inr (Or.inl ⟨x, hx, hlk⟩)) hnv
      · rfl
    · refine (validInt_ok_iff attrs min intNames).mpr ?_
      intro nm hnm v hlk
      constructor
      · by_contra hn
        exact hnv (Or.inr (Or.inr ⟨nm, hnm, v, hlk, Or.inl hn⟩))
      · by_contra hn
        exact hnv (Or.inr (Or.inr ⟨nm, hnm, v, hlk, Or.inr (by omega)⟩))

/-- Counterexample to C6 as frozen: the Residual creator performs no
attribute validation (its Go signature takes the attribute map but never
reads it), so a Residual carrying an attribute outside its empty allowed set
still elaborates successfully. -/
theorem residual_skips_attr_validation_cex :
    attrViolation [("foo", 1)] 0 [] [] [] ∧
    CreateResidual ⟨1, 1, 1⟩ [("foo", 1)] [.Activation "ReLU" ⟨1, 1, 1⟩]
      = .ok (.Residual [] [.Activation "ReLU" ⟨1, 1, 1⟩]) ∧
    Block.OutDims (.Residual [] [.Activation "ReLU" ⟨1, 1, 1⟩]) = ⟨1, 1, 1⟩ :=
  ⟨Or.inl ⟨("foo", 1), by simp, by simp⟩, rfl, rfl⟩

/-- Witness for C6 at a concrete input: the Conv creator rejects an unknown
attribute, via the creator-level rejection clause. -/
theorem attribute_validation_uniform_witness :
    ∃ e, CreateConv ⟨1, 1, 1⟩ [("bogus", 2)] [] = .error e ∧
      attrErrNaming [("bogus", 2)] 1 ["w", "h", "n", "sx", "sy"] ["w", "h", "n"]
        ["w", "h", "n", "sx", "sy"] e :=
  attribute_validation_uniform.2.2.2.1 ⟨1, 1, 1⟩ [("bogus", 2)]
    (Or.inl ⟨("bogus", 2), by simp, by simp⟩)



lemma OutDims_Conv (a b c d e : Int) (o : Dims) :
    Block.OutDims (.Conv a b c d e o) = o := rfl
lemma OutDims_Pool (nm : String) (a b c d : Int) (o : Dims) :
    Block.OutDims (.Pool nm a b c d o) = o := rfl
lemma OutDims_Residual (p r : List Block) :
    Block.OutDims (.Residual p r) = lastOutDims r := rfl
lemma OutDims_Projection (c : List Block) (i : Dims) :
    Block.OutDims (.Projection c i) = i := rfl
lemma OutDims_Repeat (n : Int) (c : List Block) (i : Dims) :
    Block.OutDims (.Repeat n c i) = i := rfl


theorem conv_output_dims (inD : Dims) (attr : Attrs) (children : List Block) (b : Block)
    (h : CreateConv inD attr children = .ok b) :
    children = [] ∧
    b.OutDims =
      ⟨max 0 (1 + Int.tdiv (inD.Width - ratTrunc (attrVal attr "w"))
          ((attr.lookup "sx").elim 1 ratTrunc)),
       max 0 (1 + Int.tdiv (inD.Height - ratTrunc (attrVal attr "h"))
          ((attr.lookup "sy").elim 1 ratTrunc)),
       ratTrunc (attrVal attr "n")⟩ := by
  unfold CreateConv at h
  by_cases hlen : children.length > 0
  · rw [if_pos hlen] at h
    exact absurd h (by simp)
  · rw [if_neg hlen] at h
    have hchildren : children = [] := by
      cases children with
      | nil => rfl
      | cons hd tl => simp at hlen
    rcases h1 : onlyTheseAttrs attr ["w", "h", "n", "sx", "sy"] with e | ⟨⟩ <;> rw [h1] at h
    · exact absurd h (by simp)
    rcases h2 : hasAllAttrs attr ["w", "h", "n"] with e | ⟨⟩ <;> rw [h2] at h
    · exact absurd h (by simp)
    rcases h3 : validInt attr 1 ["w", "h", "n", "sx", "sy"] with e | ⟨⟩ <;> rw [h3] at h
    · exact absurd h (by simp)
    simp only [] at h
    injection h with h
    subst h
    refine ⟨hchildren, ?_⟩
    have hv := (validInt_ok_iff attr 1 ["w", "h", "n", "sx", "sy"]).mp h3
    have hsx : (if ratTrunc (attrVal attr "sx") = 0 then 1
        else ratTrunc (attrVal attr "sx")) = (attr.lookup "sx").elim 1 ratTrunc := by
      rcases hx : attr.lookup "sx" with _ | v
      · simp [attrVal, hx, ratTrunc]
      · have h1le := (hv "sx" (by simp) v hx).2
        simp only [attrVal, hx, Option.getD_some, Option.elim_some]
        rw [if_neg (by omega)]
    have hsy : (if ratTrunc (attrVal attr "sy") = 0 then 1
        else ratTrunc (attrVal attr "sy")) = (attr.lookup "sy").elim 1 ratTrunc := by
      rcases hx : attr.lookup "sy" with _ | v
      · simp [attrVal, hx, ratTrunc]
      · have h1le := (hv "sy" (by simp) v hx).2
        simp only [attrVal, hx, Option.getD_some, Option.elim_some]
        rw [if_neg (by omega)]
    show Dims.mk _ _ _ = _
    simp only [Dims.mk.injEq]
    refine ⟨?_, ?_, trivial⟩
    · rw [hsx]
      rcases lt_or_ge (1 + Int.tdiv (inD.Width - ratTrunc (attrVal attr "w"))
          ((attr.lookup "sx").elim 1 ratTrunc)) 0 with hlt | hge
      · rw [if_pos hlt, max_eq_left hlt.le]
      · rw [if_neg (not_lt.mpr hge), max_eq_right hge]
    · rw [hsy]
      rcases lt_or_ge (1 + Int.tdiv (inD.Height - ratTrunc (attrVal attr "h"))
          ((attr.lookup "sy").elim 1 ratTrunc)) 0 with hlt | hge
      · rw [if_pos hlt, max_eq_left hlt.le]
      · rw [if_neg (not_lt.mpr hge), max_eq_right hge]



theorem pool_output_dims (name : String) (inD : Dims) (attr : Attrs)
    (children : List Block) (b : Block)
    (h : PoolCreator name inD attr children = .ok b) :
    children = [] ∧
    b.OutDims =
      ⟨max 0 (1 + Int.tdiv (inD.Width - ratTrunc (attrVal attr "w"))
          ((attr.lookup "sx").elim (ratTrunc (attrVal attr "w")) ratTrunc)),
       max 0 (1 + Int.tdiv (inD.Height - ratTrunc (attrVal attr "h"))
          ((attr.lookup "sy").elim (ratTrunc (attrVal attr "h")) ratTrunc)),
       inD.Depth⟩ := by
  unfold PoolCreator at h
  by_cases hlen : children.length > 0
  · rw [if_pos hlen] at h
    exact absurd h (by simp)
  · rw [if_neg hlen] at h
    have hchildren : children = [] := by
      cases children with
      | nil => rfl
      | cons hd tl => simp at hlen
    rcases h1 : onlyTheseAttrs attr ["w", "h", "sx", "sy"] with e | ⟨⟩ <;> rw [h1] at h
    · exact absurd h (by simp)
    rcases h2 : hasAllAttrs attr ["w", "h"] with e | ⟨⟩ <;> rw [h2] at h
    · exact absurd h (by simp)
    rcases h3 : validInt attr 1 ["w", "h", "sx", "sy"] with e | ⟨⟩ <;> rw [h3] at h
    · exact absurd h (by simp)
    simp only [] at h
    injection h with h
    subst h
    refine ⟨hchildren, ?_⟩
    have hv := (validInt_ok_iff attr 1 ["w", "h", "sx", "sy"]).mp h3
    have hsx : (if ratTrunc (attrVal attr "sx") = 0 then ratTrunc (attrVal attr "w")
        else ratTrunc (attrVal attr "sx")) =
        (attr.lookup "sx").elim (ratTrunc (attrVal attr "w")) ratTrunc := by
      rcases hx : attr.lookup "sx" with _ | v
      · simp [attrVal, hx, ratTrunc]
      · have h1le := (hv "sx" (by simp) v hx).2
        simp only [attrVal, hx, Option.getD_some, Option.elim_some]
        rw [if_neg (by omega)]
    have hsy : (if ratTrunc (attrVal attr "sy") = 0 then ratTrunc (attrVal attr "h")
        else ratTrunc (attrVal attr "sy")) =
        (attr.lookup "sy").elim (ratTrunc (attrVal attr "h")) ratTrunc := by
      rcases hx : attr.lookup "sy" with _ | v
      · simp [attrVal, hx, ratTrunc]
      · have h1le := (hv "sy" (by simp) v hx).2
        simp only [attrVal, hx, Option.getD_some, Option.elim_some]
        rw [if_neg (by omega)]
    show Dims.mk _ _ _ = _
    simp only [Dims.mk.injEq]
    refine ⟨?_, ?_, trivial⟩
    · rw [hsx]
      rcases lt_or_ge (1 + Int.tdiv (inD.Width - ratTrunc (attrVal attr "w"))
          ((attr.lookup "sx").elim (ratTrunc (attrVal attr "w")) ratTrunc)) 0 with hlt | hge
      · rw [if_pos hlt, max_eq_left hlt.le]
      · rw [if_neg (not_lt.mpr hge), max_eq_right hge]
    · rw [hsy]
      rcases lt_or_ge (1 + Int.tdiv (inD.Height - ratTrunc (attrVal attr "h"))
          ((attr.lookup "sy").elim (ratTrunc (attrVal attr "h")) ratTrunc)) 0 with hlt | hge
      · rw [if_pos hlt, max_eq_left hlt.le]
      · rw [if_neg (not_lt.mpr hge), max_eq_right hge]

theorem conv_floor_division_cex :
    CreateConv ⟨2, 3, 1⟩ [("w", 3), ("h", 3), ("n", 1), ("sx", 2), ("sy", 1)] []
      = .ok (.Conv 3 3 1 2 1 ⟨1, 1, 1⟩) ∧
    (Block.OutDims (.Conv 3 3 1 2 1 ⟨1, 1, 1⟩)).Width = 1 ∧
    max 0 (1 + Int.fdiv ((2 : Int) - 3) 2) = 0 := ⟨rfl, rfl, by decide⟩

theorem pool_floor_division_cex :
    PoolCreator "MaxPool" ⟨1, 1, 1⟩ [("w", 2), ("h", 1)] []
      = .ok (.Pool "MaxPool" 2 1 2 1 ⟨1, 1, 1⟩) ∧
    (Block.OutDims (.Pool "MaxPool" 2 1 2 1 ⟨1, 1, 1⟩)).Width = 1 ∧
    max 0 (1 + Int.fdiv ((1 : Int) - 2) 2) = 0 := ⟨rfl, rfl, by decide⟩

theorem conv_output_dims_witness :
    ([] : List Block) = [] ∧
    (Block.Conv 3 5 64 2 4 ⟨112, 29, 64⟩).OutDims =
      ⟨max 0 (1 + Int.tdiv ((226 : Int) -
          ratTrunc (attrVal [("w", 3), ("h", 5), ("n", 64), ("sx", 2), ("sy", 4)] "w"))
          ((([("w", 3), ("h", 5), ("n", 64), ("sx", 2), ("sy", 4)] : Attrs).lookup "sx").elim
            1 ratTrunc)),
       max 0 (1 + Int.tdiv ((117 : Int) -
          ratTrunc (attrVal [("w", 3), ("h", 5), ("n", 64), ("sx", 2), ("sy", 4)] "h"))
          ((([("w", 3), ("h", 5), ("n", 64), ("sx", 2), ("sy", 4)] : Attrs).lookup "sy").elim
            1 ratTrunc)),
       ratTrunc (attrVal [("w", 3), ("h", 5), ("n", 64), ("sx", 2), ("sy", 4)] "n")⟩ :=
  conv_output_dims ⟨226, 117, 3⟩ [("w", 3), ("h", 5), ("n", 64), ("sx", 2), ("sy", 4)] [] _ rfl

theorem pool_output_dims_witness :
    ([] : List Block) = [] ∧
    (Block.Pool "MeanPool" 2 3 1 2 ⟨111, 6, 128⟩).OutDims =
      ⟨max 0 (1 + Int.tdiv ((112 : Int) -
          ratTrunc (attrVal [("w", 2), ("h", 3), ("sx", 1), ("sy", 2)] "w"))
          ((([("w", 2), ("h", 3), ("sx", 1), ("sy", 2)] : Attrs).lookup "sx").elim
            (ratTrunc (attrVal [("w", 2), ("h", 3), ("sx", 1), ("sy", 2)] "w")) ratTrunc)),
       max 0 (1 + Int.tdiv ((14 : Int) -
          ratTrunc (attrVal [("w", 2), ("h", 3), ("sx", 1), ("sy", 2)] "h"))
          ((([("w", 2), ("h", 3), ("sx", 1), ("sy", 2)] : Attrs).lookup "sy").elim
            (ratTrunc (attrVal [("w", 2), ("h", 3), ("sx", 1), ("sy", 2)] "h")) ratTrunc)),
       128⟩ :=
  pool_output_dims "MeanPool" ⟨112, 14, 128⟩ [("w", 2), ("h", 3), ("sx", 1), ("sy", 2)] [] _ rfl



lemma CreateResidual_nonproj (inD : Dims) (attr : Attrs) (c0 : Block) (rest : List Block)
    (h0 : c0.isProjBlock = false) :
    CreateResidual inD attr (c0 :: rest) =
      if lastOutDims (c0 :: rest) ≠ inD then .error "residual output size mismatch"
      else .ok (.Residual [] (c0 :: rest)) := by
  cases c0 <;> simp_all [Block.isProjBlock, CreateResidual]

theorem residual_shape_rule (inD : Dims) (attr : Attrs) :
    (∀ pc pin rest, pc ≠ ([] : List Block) → rest ≠ ([] : List Block) →
      (CreateResidual inD attr (.Projection pc pin :: rest) = .ok (.Residual pc rest) ↔
        lastOutDims rest = lastOutDims pc) ∧
      (lastOutDims rest ≠ lastOutDims pc →
        CreateResidual inD attr (.Projection pc pin :: rest) =
          .error "residual output size mismatch") ∧
      Block.OutDims (.Residual pc rest) = lastOutDims rest) ∧
    (∀ c0 rest, c0.isProjBlock = false →
      (CreateResidual inD attr (c0 :: rest) = .ok (.Residual [] (c0 :: rest)) ↔
        lastOutDims (c0 :: rest) = inD) ∧
      (lastOutDims (c0 :: rest) ≠ inD →
        CreateResidual inD attr (c0 :: rest) = .error "residual output size mismatch") ∧
      Block.OutDims (.Residual [] (c0 :: rest)) = lastOutDims (c0 :: rest)) ∧
    (∀ pc pin, CreateResidual inD attr [.Projection pc pin] = .error ErrNotEnoughChildren) ∧
    CreateResidual inD attr [] = .error ErrNotEnoughChildren := by
  refine ⟨?_, ?_, ?_, ?_⟩
  · intro pc pin rest hpc hrest
    refine ⟨?_, ?_, OutDims_Residual pc rest⟩
    · cases rest with
      | nil => exact absurd rfl hrest
      | cons r0 rtl =>
        simp only [CreateResidual]
        by_cases hmm : lastOutDims pc ≠ lastOutDims (r0 :: rtl)
        · rw [if_pos hmm]
          constructor
          · intro hbad; exact absurd hbad (by simp)
          · intro heq; exact absurd heq.symm hmm
        · rw [if_neg hmm]
          push_neg at hmm
          exact ⟨fun _ => hmm.symm, fun _ => rfl⟩
    · intro hne
      cases rest with
      | nil => exact absurd rfl hrest
      | cons r0 rtl =>
        simp only [CreateResidual]
        rw [if_pos (fun heq => hne heq.symm)]
  · intro c0 rest h0
    refine ⟨?_, ?_, OutDims_Residual [] (c0 :: rest)⟩
    · rw [CreateResidual_nonproj inD attr c0 rest h0]
      by_cases hmm : lastOutDims (c0 :: rest) ≠ inD
      · rw [if_pos hmm]
        constructor
        · intro hbad; exact absurd hbad (by simp)
        · intro heq; exact absurd heq hmm
      · rw [if_neg hmm]
        push_neg at hmm
        exact ⟨fun _ => hmm, fun _ => rfl⟩
    · intro hne
      rw [CreateResidual_nonproj inD attr c0 rest h0, if_pos hne]
  · intro pc pin
    simp only [CreateResidual]
  · simp only [CreateResidual]

theorem residual_shape_rule_witness :
    (CreateResidual ⟨5, 5, 8⟩ [] [.Projection [.FC 9] ⟨5, 5, 8⟩, .FC 9]
        = .ok (.Residual [.FC 9] [.FC 9]) ↔
      lastOutDims [Block.FC 9] = lastOutDims [Block.FC 9]) ∧
    Block.OutDims (.Residual [.FC 9] [.FC 9]) = lastOutDims [Block.FC 9] :=
  ⟨((residual_shape_rule ⟨5, 5, 8⟩ []).1 [.FC 9] ⟨5, 5, 8⟩ [.FC 9]
      (by simp) (by simp)).1,
    ((residual_shape_rule ⟨5, 5, 8⟩ []).1 [.FC 9] ⟨5, 5, 8⟩ [.FC 9]
      (by simp) (by simp)).2.2⟩



theorem repeat_shape_preserving (inD : Dims) (attr : Attrs) (children : List Block) :
    (∀ b, CreateRepeat inD attr children = .ok b →
      (∃ v, attr.lookup "n" = some v ∧ v = ((ratTrunc v : Int) : Rat) ∧ 1 ≤ ratTrunc v) ∧
      (children ≠ [] → lastOutDims children = inD) ∧
      b = .Repeat (ratTrunc (attrVal attr "n")) children inD ∧
      Block.OutDims b = inD) ∧
    (attr.lookup "n" = some 0 → ∀ b, CreateRepeat inD attr children ≠ .ok b) ∧
    (hasAllAndOnlyInts attr 1 ["n"] = .ok () → children ≠ [] →
      lastOutDims children ≠ inD →
      CreateRepeat inD attr children = .error "input and output lengths must match") := by
  refine ⟨?_, ?_, ?_⟩
  · intro b h
    unfold CreateRepeat at h
    rcases h1 : hasAllAndOnlyInts attr 1 ["n"] with e | ⟨⟩ <;> rw [h1] at h
    · exact absurd h (by simp)
    obtain ⟨_, hpres, hints⟩ := (hasAllAndOnlyInts_ok_iff attr 1 ["n"]).mp h1
    have hn := hpres "n" (by simp)
    rcases hlk : attr.lookup "n" with _ | v
    · rw [hlk] at hn; exact absurd hn (by simp)
    have hvi := hints "n" (by simp) v hlk
    by_cases hcond : children.length > 0 ∧ lastOutDims children ≠ inD
    · rw [if_pos hcond] at h
      exact absurd h (by simp)
    · rw [if_neg hcond] at h
      injection h with h
      subst h
      refine ⟨⟨v, rfl, hvi.1, hvi.2⟩, ?_, rfl, OutDims_Repeat _ _ _⟩
      intro hne
      by_contra hbad
      exact hcond ⟨by cases children with
        | nil => exact absurd rfl hne
        | cons a l => simp, hbad⟩
  · intro hzero b h
    unfold CreateRepeat at h
    rcases h1 : hasAllAndOnlyInts attr 1 ["n"] with e | ⟨⟩ <;> rw [h1] at h
    · exact absurd h (by simp)
    obtain ⟨_, _, hints⟩ := (hasAllAndOnlyInts_ok_iff attr 1 ["n"]).mp h1
    have := (hints "n" (by simp) 0 hzero).2
    have h0 : ratTrunc 0 = 0 := by decide
    omega
  · intro h1 hne hmm
    unfold CreateRepeat
    rw [h1]
    simp only []
    rw [if_pos ⟨by cases children with
      | nil => exact absurd rfl hne
      | cons a l => simp, hmm⟩]

theorem repeat_shape_preserving_witness :
    (∃ v, ([("n", (2 : Rat))] : Attrs).lookup "n" = some v ∧
        v = ((ratTrunc v : Int) : Rat) ∧ 1 ≤ ratTrunc v) ∧
      (([] : List Block) ≠ [] → lastOutDims [] = ⟨3, 3, 3⟩) ∧
      Block.Repeat 2 [] ⟨3, 3, 3⟩ =
        .Repeat (ratTrunc (attrVal [("n", (2 : Rat))] "n")) [] ⟨3, 3, 3⟩ ∧
      Block.OutDims (.Repeat 2 [] ⟨3, 3, 3⟩) = ⟨3, 3, 3⟩ :=
  (repeat_shape_preserving ⟨3, 3, 3⟩ [("n", (2 : Rat))] []).1
    (.Repeat 2 [] ⟨3, 3, 3⟩) rfl

theorem residual_first_child_only (inD : Dims) (attr : Attrs) (c0 : Block)
    (rest : List Block) (b : Block) (h0 : c0.isProjBlock = false)
    (h : CreateResidual inD attr (c0 :: rest) = .ok b) :
    b = .Residual [] (c0 :: rest) ∧
    (∀ pc pin, Block.OutDims (.Projection pc pin) = pin) := by
  rw [CreateResidual_nonproj inD attr c0 rest h0] at h
  by_cases hmm : lastOutDims (c0 :: rest) ≠ inD
  · rw [if_pos hmm] at h
    exact absurd h (by simp)
  · rw [if_neg hmm] at h
    injection h with h
    exact ⟨h.symm, fun pc pin => OutDims_Projection pc pin⟩

theorem residual_first_child_only_witness :
    Block.Residual [] [.Activation "ReLU" ⟨1, 1, 1⟩, .Projection [.FC 5] ⟨1, 1, 1⟩]
        = .Residual [] [.Activation "ReLU" ⟨1, 1, 1⟩, .Projection [.FC 5] ⟨1, 1, 1⟩] ∧
    (∀ pc pin, Block.OutDims (.Projection pc pin) = pin) :=
  residual_first_child_only ⟨1, 1, 1⟩ [] (.Activation "ReLU" ⟨1, 1, 1⟩)
    [.Projection [.FC 5] ⟨1, 1, 1⟩] _ rfl rfl



lemma Realize_cons {α : Type} (r : RealizerFn α) (rest : RealizerChain α)
    (d : Dims) (b : Block) :
    RealizerChain.Realize (r :: rest) d b =
      if (r d b).2 = some .UnsupportedBlock then RealizerChain.Realize rest d b
      else ((r d b).1, true, (r d b).2) := by
  rw [RealizerChain.Realize]

theorem realizer_chain_dispatch {α : Type} (chain : RealizerChain α) (d : Dims) (b : Block) :
    ((∀ r ∈ chain, (r d b).2 = some .UnsupportedBlock) →
      chain.Realize d b =
        (none, false, some (.Msg ("unsupported block: " ++ b.goTypeName)))) ∧
    (∀ pre r post, chain = pre ++ r :: post →
      (∀ x ∈ pre, (x d b).2 = some .UnsupportedBlock) →
      (r d b).2 ≠ some .UnsupportedBlock →
      chain.Realize d b = ((r d b).1, true, (r d b).2)) ∧
    ((chain.Realize d b).2.1 = false ↔
      ∀ r ∈ chain, (r d b).2 = some .UnsupportedBlock) := by
  refine ⟨?_, ?_, ?_⟩
  · intro hall
    induction chain with
    | nil => rfl
    | cons r rest ih =>
      rw [Realize_cons, if_pos (hall r (by simp))]
      exact ih (fun x hx => hall x (by simp [hx]))
  · intro pre r post hchain hpre hr
    subst hchain
    induction pre with
    | nil =>
      rw [List.nil_append, Realize_cons, if_neg hr]
    | cons p ptl ih =>
      rw [List.cons_append, Realize_cons, if_pos (hpre p (by simp))]
      exact ih (fun x hx => hpre x (by simp [hx]))
  · induction chain with
    | nil => simp [RealizerChain.Realize]
    | cons r rest ih =>
      rw [Realize_cons]
      by_cases hd : (r d b).2 = some RErr.UnsupportedBlock
      · rw [if_pos hd]
        rw [ih]
        constructor
        · intro hall x hx
          rcases List.mem_cons.mp hx with rfl | hx
          · exact hd
          · exact hall x hx
        · intro hall x hx
          exact hall x (by simp [hx])
      · rw [if_neg hd]
        constructor
        · intro hbad; exact absurd hbad (by simp)
        · intro hall
          exact absurd (hall r (by simp)) hd

theorem realizer_chain_dispatch_witness :
    RealizerChain.Realize [MetaRealizer, fun _ _ => (some 7, none)] ⟨1, 1, 1⟩ (.FC 3)
      = (some 7, true, none) :=
  (realizer_chain_dispatch [MetaRealizer, fun _ _ => (some 7, none)] ⟨1, 1, 1⟩
      (.FC 3)).2.1 [MetaRealizer] (fun _ _ => (some 7, none)) [] rfl
    (by intro x hx; rw [List.mem_singleton] at hx; subst hx; rfl) (by simp)

lemma elaborateChildren_cons (reg : String → Option Creator) (d : Dims)
    (c : ASTNode) (cs : List ASTNode) (blocks : List Block)
    (h : elaborateChildren reg d (c :: cs) = .ok blocks) :
    ∃ b bs, blocks = b :: bs ∧ elaborate reg d c = .ok b ∧
      elaborateChildren reg b.OutDims cs = .ok bs := by
  rw [elaborateChildren] at h
  rcases h1 : elaborate reg d c with e | b <;> rw [h1] at h
  · exact absurd h (by simp)
  dsimp only [] at h
  rcases h2 : elaborateChildren reg b.OutDims cs with e | bs <;> rw [h2] at h
  · exact absurd h (by simp)
  simp only [] at h
  injection h with h
  exact ⟨b, bs, h.symm, rfl, h2⟩

theorem elaboration_threads_dims (reg : String → Option Creator) (d : Dims)
    (nodes : List ASTNode) (blocks : List Block)
    (h : elaborateChildren reg d nodes = .ok blocks) :
    blocks.length = nodes.length ∧
    (∀ (i : Nat) (hi : i < nodes.length) (hb : i < blocks.length),
      elaborate reg
        (if _h0 : i = 0 then d
          else Block.OutDims (blocks.get ⟨i - 1, by omega⟩))
        (nodes.get ⟨i, hi⟩) = .ok (blocks.get ⟨i, hb⟩)) ∧
    (∀ (node : ASTNode) (b : Block), elaborate reg d node = .ok b →
      ∃ create childBlocks, reg node.BlockName = some create ∧
        elaborateChildren reg d node.Children = .ok childBlocks ∧
        create d node.Attrs childBlocks = .ok b) := by
  refine ⟨?_, ?_, ?_⟩
  · induction nodes generalizing d blocks with
    | nil =>
      rw [elaborateChildren] at h
      injection h with h
      rw [← h]
      rfl
    | cons c cs ih =>
      obtain ⟨b, bs, rfl, h1, h2⟩ := elaborateChildren_cons reg d c cs blocks h
      simp [ih b.OutDims bs h2]
  · induction nodes generalizing d blocks with
    | nil =>
      intro i hi
      exact absurd hi (by simp)
    | cons c cs ih =>
      obtain ⟨b, bs, rfl, h1, h2⟩ := elaborateChildren_cons reg d c cs blocks h
      intro i hi hb
      cases i with
      | zero => simpa using h1
      | succ j =>
        have hj : j < cs.length := by simpa using hi
        have hjb : j < bs.length := by simpa using hb
        have := ih b.OutDims bs h2 j hj hjb
        cases j with
        | zero => simpa using this
        | succ k => simpa using this
  · intro node b hnode
    obtain ⟨l, blockName, attrs, children⟩ := node
    rw [elaborate] at hnode
    rcases h1 : elaborateChildren reg d children with e | childBlocks <;> rw [h1] at hnode
    · exact absurd hnode (by simp)
    rcases h2 : reg blockName with _ | create <;> rw [h2] at hnode
    · exact absurd hnode (by simp)
    exact ⟨create, childBlocks, rfl, rfl, hnode⟩

theorem elaboration_threads_dims_witness :
    elaborate DefaultCreators
      (Block.OutDims (.Input ⟨2, 3, 4⟩)) (⟨1, "ReLU", [], []⟩ : ASTNode)
      = .ok (.Activation "ReLU" ⟨2, 3, 4⟩) := by
  have h := (elaboration_threads_dims DefaultCreators ⟨0, 0, 0⟩
    [⟨0, "Input", [("w", 2), ("h", 3), ("d", 4)], []⟩, ⟨1, "ReLU", [], []⟩]
    [.Input ⟨2, 3, 4⟩, .Activation "ReLU" ⟨2, 3, 4⟩] rfl).2.1 1 (by simp) (by simp)
  simpa using h

lemma closeCondAt_cons_zero (s : String) (rest : List String) (n : Int) :
    closeCondAt (s :: rest) n 0 ↔ s = cbraceStr ∧ n = 1 := by
  simp [closeCondAt, deltaSum]

lemma closeCondAt_cons_succ (s : String) (rest : List String) (n : Int) (j : Nat) :
    closeCondAt (s :: rest) n (j + 1) ↔ closeCondAt rest (n + lineDelta s) j := by
  simp only [closeCondAt, List.length_cons, List.getD_cons_succ, List.take_succ_cons,
    deltaSum, List.map_cons, List.sum_cons]
  constructor
  · rintro ⟨h1, h2, h3⟩
    exact ⟨by omega, h2, by omega⟩
  · rintro ⟨h1, h2, h3⟩
    exact ⟨by omega, h2, by omega⟩

lemma matchingCloseAux_step (s : String) (rest : List String) (n : Int)
    (hterm : ¬(s = cbraceStr ∧ n = 1)) :
    matchingCloseAux (s :: rest) n =
      (matchingCloseAux rest (n + lineDelta s)).map (· + 1) := by
  rw [matchingCloseAux]
  by_cases hs : s = cbraceStr
  · rw [if_pos hs]
    rw [if_neg (fun hn => hterm ⟨hs, hn⟩)]
    rw [lineDelta, if_pos hs]
    rw [show (n + -1 : Int) = n - 1 from by omega]
  · rw [if_neg hs]
    by_cases he : s.endsWith obraceStr
    · rw [if_pos he, lineDelta, if_neg hs, if_pos he]
    · rw [if_neg he, lineDelta, if_neg hs, if_neg he]
      norm_num

lemma matchingCloseAux_some_iff (l : List String) (n : Int) (j : Nat) :
    matchingCloseAux l n = some j ↔
      closeCondAt l n j ∧ ∀ k, k < j → ¬ closeCondAt l n k := by
  induction l generalizing n j with
  | nil =>
    simp [matchingCloseAux, closeCondAt]
  | cons s rest ih =>
    by_cases hterm : s = cbraceStr ∧ n = 1
    · rw [matchingCloseAux, if_pos hterm.1, if_pos hterm.2]
      constructor
      · intro h
        injection h with h
        subst h
        exact ⟨(closeCondAt_cons_zero s rest n).mpr hterm, by omega⟩
      · rintro ⟨hcond, hmin⟩
        cases j with
        | zero => rfl
        | succ j' =>
          exact absurd ((closeCondAt_cons_zero s rest n).mpr hterm)
            (hmin 0 (by omega))
    · rw [matchingCloseAux_step s rest n hterm]
      constructor
      · intro h
        rcases haux : matchingCloseAux rest (n + lineDelta s) with _ | j' <;>
          rw [haux] at h
        · exact Option.noConfusion h
        · rw [Option.map_some'] at h
          injection h with h
          subst h
          obtain ⟨hcond, hmin⟩ := (ih (n + lineDelta s) j').mp haux
          refine ⟨(closeCondAt_cons_succ s rest n j').mpr hcond, ?_⟩
          intro k hk
          cases k with
          | zero =>
            rw [closeCondAt_cons_zero]
            exact hterm
          | succ k' =>
            rw [closeCondAt_cons_succ]
            exact hmin k' (by omega)
      · rintro ⟨hcond, hmin⟩
        cases j with
        | zero =>
          exact absurd ((closeCondAt_cons_zero s rest n).mp hcond) hterm
        | succ j' =>
          have hcond' := (closeCondAt_cons_succ s rest n j').mp hcond
          have hmin' : ∀ k, k < j' → ¬ closeCondAt rest (n + lineDelta s) k := by
            intro k hk hbad
            exact hmin (k + 1) (by omega) ((closeCondAt_cons_succ s rest n k).mpr hbad)
          rw [(ih (n + lineDelta s) j').mpr ⟨hcond', hmin'⟩]
          rfl

lemma matchingCloseAux_none_iff (l : List String) (n : Int) :
    matchingCloseAux l n = none ↔ ∀ j, ¬ closeCondAt l n j := by
  constructor
  · intro h j hbad
    haveI hdec : DecidablePred (closeCondAt l n) := fun k => by
      unfold closeCondAt
      infer_instance
    have hex : ∃ k, closeCondAt l n k := ⟨j, hbad⟩
    have hsome := (matchingCloseAux_some_iff l n (Nat.find hex)).mpr
      ⟨Nat.find_spec hex, fun k hk => Nat.find_min hex hk⟩
    rw [h] at hsome
    exact absurd hsome (by simp)
  · intro hall
    rcases h : matchingCloseAux l n with _ | j
    · rfl
    · obtain ⟨hcond, _⟩ := (matchingCloseAux_some_iff l n j).mp h
      exact absurd hcond (hall j)



theorem parse_body_matching_close
    (off : Int) (x : String) (rest : List String)
    (name attrStr : String) (attrs : Attrs)
    (hcmd : commandMatch x = some (name, attrStr, true))
    (hattrs : parseAttrs attrStr = .ok attrs) :
    ((∀ j, ¬ closeCondAt rest 1 j) →
      parseLines off (x :: rest) = .error ⟨"no matching " ++ cbraceStr, off⟩) ∧
    (∀ c, closeCondAt rest 1 c → (∀ k, k < c → ¬ closeCondAt rest 1 k) →
      (∀ children, parseLines (off + 1) (rest.take c) = .ok children →
        (∀ nodes, parseLines (off + (c : Int) + 2) (rest.drop (c + 1)) = .ok nodes →
          parseLines off (x :: rest) =
            .ok (⟨off, name, attrs, children⟩ :: nodes)) ∧
        (∀ e, parseLines (off + (c : Int) + 2) (rest.drop (c + 1)) = .error e →
          parseLines off (x :: rest) = .error e)) ∧
      (∀ e, parseLines (off + 1) (rest.take c) = .error e →
        parseLines off (x :: rest) = .error e)) := by
  have hxne : x ≠ "" := by
    intro hx
    subst hx
    simp [show commandMatch "" = some ("", "", false) from rfl] at hcmd
  have hunfold : parseLines off (x :: rest) =
      match matchingCloseAux rest 1 with
      | none => .error ⟨"no matching " ++ cbraceStr, off⟩
      | some c =>
        match parseLines (off + 1) (rest.take c) with
        | .error e => .error e
        | .ok children =>
          match parseLines (off + (c : Int) + 2) (rest.drop (c + 1)) with
          | .error e => .error e
          | .ok nodes => .ok (⟨off, name, attrs, children⟩ :: nodes) := by
    rw [parseLines, if_neg hxne, hcmd]
    dsimp only []
    rw [hattrs]
    dsimp only []
    rw [if_pos rfl]
  refine ⟨?_, ?_⟩
  · intro hnone
    rw [hunfold, (matchingCloseAux_none_iff rest 1).mpr hnone]
  · intro c hc hmin
    have hsome := (matchingCloseAux_some_iff rest 1 c).mpr ⟨hc, hmin⟩
    rw [hunfold, hsome]
    dsimp only []
    refine ⟨?_, ?_⟩
    · intro children hch
      rw [hch]
      dsimp only []
      refine ⟨?_, ?_⟩
      · intro nodes hnd
        rw [hnd]
      · intro e he
        rw [he]
    · intro e he
      rw [he]

theorem parse_body_matching_close_witness :
    parseLines 0 ["Residual " ++ obraceStr, "ReLU"]
      = .error ⟨"no matching " ++ cbraceStr, 0⟩ :=
  (parse_body_matching_close 0 ("Residual " ++ obraceStr) ["ReLU"] "Residual" "" []
      (by decide) rfl).1
    (by
      intro j hbad
      obtain ⟨hj, hget, _⟩ := hbad
      have hj0 : j = 0 := by
        simp only [List.length_singleton, Nat.lt_one_iff] at hj
        exact hj
      subst hj0
      exact absurd hget (by decide))

theorem parse_error_line_one_based :
    (∀ (L : Int) (M : String),
      ParseError.Error ⟨M, L⟩ = "line " ++ toString (L + 1) ++ ": " ++ M) ∧
    (∃ e : ParseError, parseLines 0 ["", "???"] = .error e ∧ e.Line = 1 ∧
      e.Error = "line 2: invalid block declaration") := by
  refine ⟨fun L M => rfl, ⟨⟨"invalid block declaration", 1⟩, ?_, rfl, rfl⟩⟩
  rw [parseLines, if_pos rfl, parseLines, if_neg (by decide),
    show commandMatch "???" = none from by decide]
  norm_num

end Convmarkup
